import Mathlib

/-
Verification of the strided-array sketch (src/main.rs).

The model is a shallow embedding:
* A raw pointer into an allocation is modelled as a `Nat` offset from the
  start of that allocation, and the allocation itself as a `List U`.
* `Array<A, U>` carries `shape : [usize; 2]`, `start : *mut U` and
  `stride : usize`; the geometry is modelled by `ArrayGeom` (the `data`
  payload only selects read/write capability, which the model does not
  need to distinguish for the layout facts proved here).
* Views (the `PhantomData` modes) own no storage: reads and writes take
  the shared backing list as an explicit argument, so "no copy" is
  literal in the model — slicing produces only a new `ArrayGeom`.
* `usize` arithmetic appears here as `Nat` arithmetic; the one place the
  source could underflow (`end - start` with `start > end`) is noted at
  its definition.
-/

namespace ArrayLib

variable {U : Type}

/-- `ArrayRange`: a normalized range `{start, end}`; `end = none` means the
range is unbounded and is resolved against the dimension's current size by
the consuming slice operation.  (`end` is a Lean keyword, so the field is
called `stop`.) -/
structure ArrayRange where
  start : Nat
  stop : Option Nat
deriving DecidableEq

/-- The five `From` impls feeding `Into<ArrayRange>`: `a..b`, `..`, `a..`,
`..b`, and a single index `k`. -/
inductive RangeExpr where
  | closed (a b : Nat)
  | full
  | rangeFrom (a : Nat)
  | rangeTo (b : Nat)
  | single (k : Nat)

/-- The `From` conversions of the source, one equation per impl:
`Range` keeps both endpoints, `RangeFull` is `{0, None}`, `RangeFrom` keeps
the start with `None` end, `RangeTo` starts at `0`, and a single index `k`
becomes the width-1 range `{k, Some (k+1)}`. -/
def RangeExpr.into : RangeExpr → ArrayRange
  | .closed a b => { start := a, stop := some b }
  | .full => { start := 0, stop := none }
  | .rangeFrom a => { start := a, stop := none }
  | .rangeTo b => { start := 0, stop := some b }
  | .single k => { start := k, stop := some (k + 1) }

/-- `end.unwrap_or(dim)`: resolve an unbounded range end against a concrete
dimension size, as `slice`/`slice_mut` do. -/
def ArrayRange.resolve (r : ArrayRange) (dim : Nat) : Nat :=
  r.stop.getD dim

/-- The geometry of an `Array`: `shape = [rows, cols]`, the row `stride`, and
`start`, the offset of element `(0,0)` within the backing allocation (the
source stores a raw pointer; the model measures it from the allocation
base). -/
structure ArrayGeom where
  rows : Nat
  cols : Nat
  stride : Nat
  start : Nat
deriving DecidableEq

/-- The storage offset the source's unchecked pointer arithmetic produces for
index `(i, j)`: `self.start.add(i * stride + j)`. -/
def ArrayGeom.offset (a : ArrayGeom) (i j : Nat) : Nat :=
  a.start + (i * a.stride + j)

/-- `Array::slice`: converts both arguments into `ArrayRange`, substitutes the
array edge for an unbounded end (`unwrap_or(self.shape[d])`), computes the
view size `m × n` and the pointer to the first element
(`start.add(stride * is.start + js.start)`), and passes `stride` through
unchanged.  The source performs no validation of the ranges whatsoever; it
also computes `iend - is.start` on `usize`, which underflows when
`start > end` (here `Nat` subtraction truncates; every theorem that depends
on the width is stated under `start ≤ end`, where the two agree). -/
def slice (a : ArrayGeom) (is js : ArrayRange) : ArrayGeom :=
  let iend := is.stop.getD a.rows
  let jend := js.stop.getD a.cols
  let m := iend - is.start
  let n := jend - js.start
  let upper_left := a.start + (a.stride * is.start + js.start)
  { rows := m, cols := n, stride := a.stride, start := upper_left }

/-- `Array::slice_mut`: textually the same geometry computation as `slice`;
only the mode of the returned view differs (exclusive write access, enforced
by the borrow checker outside this model). -/
def slice_mut (a : ArrayGeom) (is js : ArrayRange) : ArrayGeom :=
  let iend := is.stop.getD a.rows
  let jend := js.stop.getD a.cols
  let m := iend - is.start
  let n := jend - js.start
  let upper_left := a.start + (a.stride * is.start + js.start)
  { rows := m, cols := n, stride := a.stride, start := upper_left }

/-- `impl Index for Array` (`fn index`): an unchecked read of the backing
storage at `offset i j`.  There is no bounds check in the source; a read past
the end of the allocation is undefined behavior, which the model renders as
`none`. -/
def index (buf : List U) (a : ArrayGeom) (i j : Nat) : Option U :=
  buf[a.offset i j]?

/-- `impl IndexMut for Array` (`fn index_mut`): an unchecked write of the
backing storage at `offset i j`.  (`List.set` leaves the list unchanged past
its end; an out-of-allocation write is undefined behavior in the source.) -/
def index_mut_set (buf : List U) (a : ArrayGeom) (i j : Nat) (x : U) : List U :=
  buf.set (a.offset i j) x

/-- The geometry every owned constructor in the source builds: shape
`[m, n]`, `stride = n`, and `start` at the beginning of its own fresh
allocation (offset 0). -/
def own (m n : Nat) : ArrayGeom :=
  { rows := m, cols := n, stride := n, start := 0 }

/-- An owned matrix (`type Matrix<R> = Array<Vec<R>, R>`): its geometry
together with the `Vec` backing it. -/
structure Matrix (U : Type) where
  geom : ArrayGeom
  buf : List U
deriving DecidableEq

/-- `Array::uninitialized_memory`: `Vec::with_capacity(m * n)` followed by
`set_len(m * n)` — an allocation of length `m * n` whose contents are
arbitrary.  The arbitrary contents are modelled by the parameter `junk`; the
fill results below hold for every `junk`. -/
def uninit_memory (m n : Nat) (junk : Nat → U) : Matrix U :=
  { geom := own m n, buf := (List.range (m * n)).map junk }

/-- The `Ring` trait: `zero`, `one`, plus the `Add`/`Mul`/`Neg` operations. -/
structure RingOps (U : Type) where
  zero : U
  one : U
  add : U → U → U
  mul : U → U → U
  neg : U → U

/-- `ring!(f32)`, the single `Ring` impl in the source: `zero = 0`,
`one = 1`.  `f32` is modelled by `ℚ`, which is exact on the small integer
values these programs produce. -/
def ringF32 : RingOps ℚ :=
  { zero := 0, one := 1
    add := fun x y => x + y
    mul := fun x y => x * y
    neg := fun x => -x }

/-- `Matrix::zero(shape)`: `vec![R::zero(); m * n]` with shape `[m, n]` and
stride `n`. -/
def zero (R : RingOps U) (m n : Nat) : Matrix U :=
  { geom := own m n, buf := List.replicate (m * n) R.zero }

/-- `Matrix::from_fn(shape, f)`: takes uninitialized storage of size `m * n`
and fills every cell by `ret[[i, j]] = f(i, j)`, `i` outer and `j` inner
(row-major order), through the unchecked `IndexMut`. -/
def from_fn (m n : Nat) (f : Nat → Nat → U) (junk : Nat → U) : Matrix U :=
  { geom := own m n
    buf := (List.range m).foldl
      (fun b i => (List.range n).foldl
        (fun b2 j => index_mut_set b2 (own m n) i j (f i j)) b)
      (uninit_memory m n junk).buf }

/-- `Matrix::id(n)`: `from_fn([n, n], ...)` with `one` on the diagonal and
`zero` elsewhere. -/
def id (R : RingOps U) (n : Nat) (junk : Nat → U) : Matrix U :=
  from_fn n n (fun i j => if i = j then R.one else R.zero) junk

/-- The `matrix!` macro: the nested literal becomes a 2-D array (the
compiler rejects ragged rows), `m = data.len()`, `n = data[0].len()`, and the
storage is the rows flat-mapped in order; shape `[m, n]`, stride `n`. -/
def matrix_literal (rows : List (List U)) : Matrix U :=
  { geom := own rows.length (rows.headD []).length
    buf := rows.flatten }

/-- Modelled from the spec: the dot product the external numeric kernel
accumulates for output cell `(i, j)` — the kernel itself (the
`matrixmultiply` crate's `sgemm`) is an external collaborator, not part of
this repository.  It reads `a` at `i*rsa + t*csa` and `b` at `t*rsb + j*csb`
and accumulates left to right over `t < k`. -/
def dot_at (k : Nat) (abuf : List ℚ) (rsa csa : Nat)
    (bbuf : List ℚ) (rsb csb : Nat) (i j : Nat) : ℚ :=
  (List.range k).foldl
    (fun acc t => acc + abuf.getD (i * rsa + t * csa) 0 * bbuf.getD (t * rsb + j * csb) 0) 0

/-- Modelled from the spec: the external `sgemm` kernel with the call
contract of section 6 — given `m, k, n`, scale factors `alpha` and `beta`,
and base/row-stride/column-stride for `a`, `b` and the output, it computes
`output = alpha * (a · b) + beta * output` for the `m×k` by `k×n` product,
writing every one of the `m * n` output cells (cell `(i, j)` at offset
`i*rsc + j*csc`). -/
def sgemm (m k n : Nat) (alpha : ℚ) (abuf : List ℚ) (rsa csa : Nat)
    (bbuf : List ℚ) (rsb csb : Nat) (beta : ℚ) (cbuf : List ℚ) (rsc csc : Nat) : List ℚ :=
  (List.range m).foldl
    (fun c i => (List.range n).foldl
      (fun c2 j => c2.set (i * rsc + j * csc)
        (alpha * dot_at k abuf rsa csa bbuf rsb csb i j + beta * c2.getD (i * rsc + j * csc) 0)) c)
    cbuf

/-- The argument tuple `Mul for &Matrix<f32>` passes to `sgemm`: with
`[m, k] = self.shape` and `[l, n] = rhs.shape` the source passes the shape
fields `k`, `n` and `n` (NOT the arrays' `stride` fields) as the row strides
of `a`, `b` and the result, and `1` as every column stride. -/
structure GemmArgs where
  m : Nat
  k : Nat
  n : Nat
  alpha : ℚ
  rsa : Nat
  csa : Nat
  rsb : Nat
  csb : Nat
  beta : ℚ
  rsc : Nat
  csc : Nat
deriving DecidableEq

/-- The exact argument tuple of the `sgemm` call in `Mul for &Matrix<f32>`. -/
def mul_gemm_args (a b : Matrix ℚ) : GemmArgs :=
  { m := a.geom.rows, k := a.geom.cols, n := b.geom.cols
    alpha := 1, rsa := a.geom.cols, csa := 1
    rsb := b.geom.cols, csb := 1
    beta := 0, rsc := b.geom.cols, csc := 1 }

/-- The observable result of `&Matrix<f32> * &Matrix<f32>`: the source runs
`assert!(l == k)`, so an incompatible shape aborts the program — `panicked`
models that abort.  No error value of any kind is defined or returned
anywhere in the source. -/
inductive MulOutcome where
  | panicked
  | ok (result : Matrix ℚ)
deriving DecidableEq

/-- `Mul for &Matrix<f32>` (`fn mul`): asserts `l == k`, allocates an
uninitialized `m × n` result, and calls `sgemm` with the arguments recorded
by `mul_gemm_args` (`alpha = 1`, `beta = 0`, leading dimensions `k`, `n`,
`n`, unit column strides). -/
def mul (a b : Matrix ℚ) (junk : Nat → ℚ) : MulOutcome :=
  let m := a.geom.rows
  let k := a.geom.cols
  let l := b.geom.rows
  let n := b.geom.cols
  if l = k then
    .ok { geom := own m n
          buf := sgemm m k n 1 a.buf k 1 b.buf n 1 0 (uninit_memory m n junk).buf n 1 }
  else
    .panicked

/-- The spec's in-bounds condition for a range against a dimension:
`start ≤ resolved end ≤ dim`.  The source never checks it; the theorems
below take it as a hypothesis where the claims assume it. -/
def rangeInBounds (r : ArrayRange) (dim : Nat) : Prop :=
  r.start ≤ r.resolve dim ∧ r.resolve dim ≤ dim

instance (r : ArrayRange) (dim : Nat) : Decidable (rangeInBounds r dim) :=
  decidable_of_iff (r.start ≤ r.resolve dim ∧ r.resolve dim ≤ dim) Iff.rfl

/-- Every address a view can produce stays below `len` (the size of the
original allocation). -/
def addrWithin (len : Nat) (v : ArrayGeom) : Prop :=
  ∀ i j, i < v.rows → j < v.cols → v.offset i j < len

/-! ### Helper lemmas about sequential stores into a list -/

/-- A run of `cnt` stores at consecutive offsets `base, base+1, …`. -/
def setSeq (base : Nat) (g : Nat → U) (cnt : Nat) (buf : List U) : List U :=
  (List.range cnt).foldl (fun b j => b.set (base + j) (g j)) buf

theorem setSeq_succ (base : Nat) (g : Nat → U) (cnt : Nat) (buf : List U) :
    setSeq base g (cnt + 1) buf = (setSeq base g cnt buf).set (base + cnt) (g cnt) := by
  unfold setSeq
  rw [List.range_succ, List.foldl_append]
  rfl

theorem setSeq_length (base : Nat) (g : Nat → U) (cnt : Nat) (buf : List U) :
    (setSeq base g cnt buf).length = buf.length := by
  induction cnt with
  | zero => rfl
  | succ c ih => rw [setSeq_succ, List.length_set, ih]

theorem setSeq_getElem?_lt (base : Nat) (g : Nat → U) (cnt : Nat) (buf : List U)
    (p : Nat) (hp : p < base) :
    (setSeq base g cnt buf)[p]? = buf[p]? := by
  induction cnt with
  | zero => rfl
  | succ c ih =>
    rw [setSeq_succ, List.getElem?_set_ne (by omega), ih]

theorem setSeq_getElem?_hit (base : Nat) (g : Nat → U) (cnt : Nat) (buf : List U)
    (j : Nat) (hj : j < cnt) (hlen : base + j < buf.length) :
    (setSeq base g cnt buf)[base + j]? = some (g j) := by
  induction cnt with
  | zero => omega
  | succ c ih =>
    rw [setSeq_succ]
    rcases Nat.lt_or_ge j c with h | h
    · rw [List.getElem?_set_ne (by omega), ih h]
    · have hjc : j = c := by omega
      subst hjc
      exact List.getElem?_set_eq_of_lt _ (by rw [setSeq_length]; exact hlen)

/-- Folding a length-preserving step preserves length. -/
theorem foldl_preserves_length {α : Type} (g : List U → α → List U)
    (hg : ∀ b x, (g b x).length = b.length) (l : List α) (buf : List U) :
    (l.foldl g buf).length = buf.length := by
  induction l generalizing buf with
  | nil => rfl
  | cons x xs ih => rw [List.foldl_cons, ih, hg]

/-- The row-major bound: cell `(i, j)` of an `m × n` grid sits below `m * n`. -/
theorem rowmajor_lt {i j m n : Nat} (hi : i < m) (hj : j < n) :
    i * n + j < m * n :=
  calc i * n + j < i * n + n := by omega
    _ = (i + 1) * n := by ring
    _ ≤ m * n := Nat.mul_le_mul_right n (by omega)

/-! ### The `from_fn` fill loop -/

/-- The buffer `from_fn` builds is the row-by-row sequence of stores. -/
theorem from_fn_buf_eq (m n : Nat) (f : Nat → Nat → U) (junk : Nat → U) :
    (from_fn m n f junk).buf
      = (List.range m).foldl (fun b i => setSeq (i * n) (f i) n b)
          ((List.range (m * n)).map junk) := by
  simp only [from_fn, uninit_memory, setSeq, index_mut_set, ArrayGeom.offset, own,
    Nat.zero_add]

theorem fold_rows_length (n : Nat) (f : Nat → Nat → U) (m : Nat) (buf : List U) :
    ((List.range m).foldl (fun b i => setSeq (i * n) (f i) n b) buf).length
      = buf.length := by
  apply foldl_preserves_length
  intro b i
  exact setSeq_length _ _ _ _

theorem fold_rows_getElem? (n : Nat) (f : Nat → Nat → U) (m : Nat) (buf : List U)
    (i j : Nat) (hi : i < m) (hj : j < n) (hlen : i * n + j < buf.length) :
    ((List.range m).foldl (fun b i2 => setSeq (i2 * n) (f i2) n b) buf)[i * n + j]?
      = some (f i j) := by
  induction m with
  | zero => omega
  | succ m ih =>
    rw [List.range_succ, List.foldl_append, List.foldl_cons, List.foldl_nil]
    rcases Nat.lt_or_ge i m with h | h
    · rw [setSeq_getElem?_lt _ _ _ _ _ (by exact rowmajor_lt h hj), ih h]
    · have him : i = m := by omega
      subst him
      exact setSeq_getElem?_hit _ _ _ _ _ hj (by rw [fold_rows_length]; exact hlen)

theorem from_fn_length (m n : Nat) (f : Nat → Nat → U) (junk : Nat → U) :
    (from_fn m n f junk).buf.length = m * n := by
  rw [from_fn_buf_eq, fold_rows_length, List.length_map, List.length_range]

theorem from_fn_getElem? (m n : Nat) (f : Nat → Nat → U) (junk : Nat → U)
    (i j : Nat) (hi : i < m) (hj : j < n) :
    (from_fn m n f junk).buf[i * n + j]? = some (f i j) := by
  rw [from_fn_buf_eq]
  exact fold_rows_getElem? n f m _ i j hi hj
    (by rw [List.length_map, List.length_range]; exact rowmajor_lt hi hj)

theorem from_fn_geom (m n : Nat) (f : Nat → Nat → U) (junk : Nat → U) :
    (from_fn m n f junk).geom = own m n := rfl

/-- Slicing composes offsets: the address a view computes for `(i, j)` is the
address its source computes for `(r.start + i, c.start + j)`. -/
theorem slice_offset (a : ArrayGeom) (r c : ArrayRange) (i j : Nat) :
    (slice a r c).offset i j = a.offset (r.start + i) (c.start + j) := by
  simp only [slice, ArrayGeom.offset]
  ring

/-- `slice_mut` computes exactly the geometry `slice` computes. -/
theorem slice_mut_eq_slice (a : ArrayGeom) (r c : ArrayRange) :
    slice_mut a r c = slice a r c := rfl

theorem sgemm_length (m k n : Nat) (alpha : ℚ) (abuf : List ℚ) (rsa csa : Nat)
    (bbuf : List ℚ) (rsb csb : Nat) (beta : ℚ) (cbuf : List ℚ) (rsc csc : Nat) :
    (sgemm m k n alpha abuf rsa csa bbuf rsb csb beta cbuf rsc csc).length
      = cbuf.length := by
  unfold sgemm
  apply foldl_preserves_length
  intro c1 i
  apply foldl_preserves_length
  intro c2 j
  simp

/-- On compatible shapes, `mul` is exactly the `sgemm` call with the
argument tuple `mul_gemm_args` records. -/
theorem mul_eq_sgemm_call (a b : Matrix ℚ) (junk : Nat → ℚ)
    (h : b.geom.rows = a.geom.cols) :
    mul a b junk
      = .ok { geom := own (mul_gemm_args a b).m (mul_gemm_args a b).n
              buf := sgemm (mul_gemm_args a b).m (mul_gemm_args a b).k
                (mul_gemm_args a b).n (mul_gemm_args a b).alpha
                a.buf (mul_gemm_args a b).rsa (mul_gemm_args a b).csa
                b.buf (mul_gemm_args a b).rsb (mul_gemm_args a b).csb
                (mul_gemm_args a b).beta
                (uninit_memory (mul_gemm_args a b).m (mul_gemm_args a b).n junk).buf
                (mul_gemm_args a b).rsc (mul_gemm_args a b).csc } := by
  simp only [mul]
  rw [if_pos h]
  rfl

/-! ### The claims -/

/-- Claim C1: for every array and in-bounds row/column ranges, slicing is a
pure re-indexing of the same storage — reading the view at `(i, j)` reads the
source at `(r.start + i, c.start + j)`.  Both reads go through the one shared
backing list `buf`; `slice` produces only a new geometry, so no element is
copied. -/
theorem C1_slice_is_reindexing (buf : List U) (a : ArrayGeom) (r c : ArrayRange)
    (hr : rangeInBounds r a.rows) (hc : rangeInBounds c a.cols)
    (i j : Nat) (hi : i < (slice a r c).rows) (hj : j < (slice a r c).cols) :
    index buf (slice a r c) i j = index buf a (r.start + i) (c.start + j) := by
  unfold index
  rw [slice_offset]

theorem C1_slice_is_reindexing_witness :
    index ([10, 20, 30, 40, 50, 60] : List Nat)
        (slice (own 2 3) { start := 1, stop := some 2 } { start := 1, stop := some 3 }) 0 1
      = index ([10, 20, 30, 40, 50, 60] : List Nat) (own 2 3) (1 + 0) (1 + 1) :=
  C1_slice_is_reindexing [10, 20, 30, 40, 50, 60] (own 2 3)
    { start := 1, stop := some 2 } { start := 1, stop := some 3 }
    (by decide) (by decide) 0 1 (by decide) (by decide)

/-- Claim C3: `slice` and `slice_mut` agree; the view keeps the source's
stride, its shape is `(row_end - row_start, col_end - col_start)` with the
ends resolved against the source's shape, and its base is the source's base
shifted by `row_start * stride + col_start`.  Consequently every address the
view can form is an address of a valid cell of its source — and since the
source `a` here ranges over arbitrary view geometries, the invariant is
preserved under repeated sub-slicing. -/
theorem C3_slice_geometry (a : ArrayGeom) (r c : ArrayRange)
    (hr : rangeInBounds r a.rows) (hc : rangeInBounds c a.cols) :
    slice_mut a r c = slice a r c
    ∧ (slice a r c).stride = a.stride
    ∧ (slice a r c).rows = r.resolve a.rows - r.start
    ∧ (slice a r c).cols = c.resolve a.cols - c.start
    ∧ (slice a r c).start = a.start + (a.stride * r.start + c.start)
    ∧ ∀ i j, i < (slice a r c).rows → j < (slice a r c).cols →
        ∃ pi pj, pi < a.rows ∧ pj < a.cols
          ∧ (slice a r c).offset i j = a.offset pi pj := by
  obtain ⟨hr1, hr2⟩ := hr
  obtain ⟨hc1, hc2⟩ := hc
  refine ⟨rfl, rfl, rfl, rfl, rfl, ?_⟩
  intro i j hi hj
  have hi2 : i < r.resolve a.rows - r.start := hi
  have hj2 : j < c.resolve a.cols - c.start := hj
  exact ⟨r.start + i, c.start + j, by omega, by omega, slice_offset a r c i j⟩

theorem C3_slice_geometry_witness :
    slice_mut (own 3 4) { start := 1, stop := none } { start := 2, stop := some 4 }
        = slice (own 3 4) { start := 1, stop := none } { start := 2, stop := some 4 }
    ∧ (slice (own 3 4) { start := 1, stop := none } { start := 2, stop := some 4 }).stride = (own 3 4).stride
    ∧ (slice (own 3 4) { start := 1, stop := none } { start := 2, stop := some 4 }).rows
        = ArrayRange.resolve { start := 1, stop := none } (own 3 4).rows - 1
    ∧ (slice (own 3 4) { start := 1, stop := none } { start := 2, stop := some 4 }).cols
        = ArrayRange.resolve { start := 2, stop := some 4 } (own 3 4).cols - 2
    ∧ (slice (own 3 4) { start := 1, stop := none } { start := 2, stop := some 4 }).start
        = (own 3 4).start + ((own 3 4).stride * 1 + 2)
    ∧ ∀ i j, i < (slice (own 3 4) { start := 1, stop := none } { start := 2, stop := some 4 }).rows
        → j < (slice (own 3 4) { start := 1, stop := none } { start := 2, stop := some 4 }).cols
        → ∃ pi pj, pi < (own 3 4).rows ∧ pj < (own 3 4).cols
            ∧ (slice (own 3 4) { start := 1, stop := none } { start := 2, stop := some 4 }).offset i j
                = (own 3 4).offset pi pj :=
  C3_slice_geometry (own 3 4) { start := 1, stop := none } { start := 2, stop := some 4 }
    (by decide) (by decide)

/-- Claim C5: range normalization is exact — a single index `k` becomes the
width-1 range `{k, Some (k+1)}`; the full range and `a..` leave
`end = None`, which `resolve` (the slice operations' `unwrap_or`) later
replaces by the dimension's current size; `a..b` becomes `{a, Some b}` and
`..b` becomes `{0, Some b}`. -/
theorem C5_range_normalization (a b k : Nat) :
    RangeExpr.into (.single k) = { start := k, stop := some (k + 1) }
    ∧ RangeExpr.into .full = { start := 0, stop := none }
    ∧ RangeExpr.into (.rangeFrom a) = { start := a, stop := none }
    ∧ RangeExpr.into (.closed a b) = { start := a, stop := some b }
    ∧ RangeExpr.into (.rangeTo b) = { start := 0, stop := some b }
    ∧ (∀ d : Nat, (RangeExpr.into .full).resolve d = d)
    ∧ (∀ d : Nat, (RangeExpr.into (.rangeFrom a)).resolve d = d) :=
  ⟨rfl, rfl, rfl, rfl, rfl, fun _ => rfl, fun _ => rfl⟩

/-- Claim C6: `id(n)[i, j]` is `one()` exactly on the diagonal and `zero()`
off it, for all `i, j < n`, whatever garbage the uninitialized allocation
held. -/
theorem C6_id_diagonal (n : Nat) (junk : Nat → ℚ) (i j : Nat)
    (hi : i < n) (hj : j < n) :
    (index (ArrayLib.id ringF32 n junk).buf (ArrayLib.id ringF32 n junk).geom i j
        = some ringF32.one ↔ i = j)
    ∧ (i ≠ j → index (ArrayLib.id ringF32 n junk).buf (ArrayLib.id ringF32 n junk).geom i j
        = some ringF32.zero) := by
  have hoff : (ArrayLib.id ringF32 n junk).geom.offset i j = i * n + j := by
    simp [ArrayLib.id, from_fn, own, ArrayGeom.offset]
  have hread : index (ArrayLib.id ringF32 n junk).buf (ArrayLib.id ringF32 n junk).geom i j
      = some (if i = j then ringF32.one else ringF32.zero) := by
    rw [index, hoff]
    exact from_fn_getElem? n n _ junk i j hi hj
  constructor
  · rw [hread]
    constructor
    · intro h
      by_contra hne
      rw [if_neg hne] at h
      have : ringF32.zero = ringF32.one := Option.some.inj h
      simp [ringF32] at this
    · intro h
      rw [if_pos h]
  · intro h
    rw [hread, if_neg h]

theorem C6_id_diagonal_witness :
    ((index (ArrayLib.id ringF32 2 (fun _ => 37)).buf
        (ArrayLib.id ringF32 2 (fun _ => 37)).geom 0 1 = some ringF32.one ↔ (0 : Nat) = 1)
      ∧ ((0 : Nat) ≠ 1 → index (ArrayLib.id ringF32 2 (fun _ => 37)).buf
          (ArrayLib.id ringF32 2 (fun _ => 37)).geom 0 1 = some ringF32.zero))
    ∧ ((index (ArrayLib.id ringF32 2 (fun _ => 37)).buf
        (ArrayLib.id ringF32 2 (fun _ => 37)).geom 1 1 = some ringF32.one ↔ (1 : Nat) = 1)
      ∧ ((1 : Nat) ≠ 1 → index (ArrayLib.id ringF32 2 (fun _ => 37)).buf
          (ArrayLib.id ringF32 2 (fun _ => 37)).geom 1 1 = some ringF32.zero)) :=
  ⟨C6_id_diagonal 2 (fun _ => 37) 0 1 (by decide) (by decide),
   C6_id_diagonal 2 (fun _ => 37) 1 1 (by decide) (by decide)⟩

/-- Claim C2 is FALSE as stated: on a 2×2 array the range `0..5` exceeds the
row dimension, yet `slice` reports nothing — it has no failure channel at
all — and returns a 5×2 view whose addresses escape the 4-element parent
allocation. -/
theorem C2_counterexample :
    slice (own 2 2) { start := 0, stop := some 5 } { start := 0, stop := some 2 }
      = { rows := 5, cols := 2, stride := 2, start := 0 }
    ∧ ¬ addrWithin (2 * 2)
        (slice (own 2 2) { start := 0, stop := some 5 } { start := 0, stop := some 2 }) := by
  refine ⟨rfl, ?_⟩
  intro h
  exact absurd (h 4 1 (by decide) (by decide)) (by decide)

/-- Claim C2 (amended): `slice` resolves an unbounded end (`end = None`)
against the dimension's current size, but performs NO validation: the
returned extent is exactly `resolved_end - start` even when the resolved
range exceeds the dimension (no `OutOfBounds` error — the operation is total
and the source defines no error type), and a resolved `start > end` is not
reported as `InvalidRange` either (the source's unchecked `usize`
subtraction underflows there; the hypotheses below restrict to
`start ≤ end`, where the `Nat` model is exact). -/
theorem C2_no_validation (a : ArrayGeom) (r c : ArrayRange)
    (hr : r.start ≤ r.resolve a.rows) (hc : c.start ≤ c.resolve a.cols) :
    (slice a r c).rows = r.resolve a.rows - r.start
    ∧ (slice a r c).cols = c.resolve a.cols - c.start
    ∧ r.start + (slice a r c).rows = r.resolve a.rows
    ∧ c.start + (slice a r c).cols = c.resolve a.cols := by
  have h1 : (slice a r c).rows = r.resolve a.rows - r.start := rfl
  have h2 : (slice a r c).cols = c.resolve a.cols - c.start := rfl
  exact ⟨h1, h2, by omega, by omega⟩

theorem C2_no_validation_witness :
    (slice (own 2 2) { start := 0, stop := some 5 } { start := 1, stop := none }).rows
        = ArrayRange.resolve { start := 0, stop := some 5 } (own 2 2).rows - 0
    ∧ (slice (own 2 2) { start := 0, stop := some 5 } { start := 1, stop := none }).cols
        = ArrayRange.resolve { start := 1, stop := none } (own 2 2).cols - 1
    ∧ 0 + (slice (own 2 2) { start := 0, stop := some 5 } { start := 1, stop := none }).rows
        = ArrayRange.resolve { start := 0, stop := some 5 } (own 2 2).rows
    ∧ 1 + (slice (own 2 2) { start := 0, stop := some 5 } { start := 1, stop := none }).cols
        = ArrayRange.resolve { start := 1, stop := none } (own 2 2).cols :=
  C2_no_validation (own 2 2) { start := 0, stop := some 5 } { start := 1, stop := none }
    (by decide) (by decide)

/-- Claim C4: a write through a `slice_mut` view at a valid view index is
observed when the same cell is read back through the original array — the
view and the source share the one backing list, no copy is made. -/
theorem C4_slice_mut_write_visible (buf : List U) (m n : Nat)
    (hlen : buf.length = m * n)
    (r c : ArrayRange) (hr : rangeInBounds r m) (hc : rangeInBounds c n)
    (x : U) (i j : Nat)
    (hi : i < (slice_mut (own m n) r c).rows)
    (hj : j < (slice_mut (own m n) r c).cols) :
    index (index_mut_set buf (slice_mut (own m n) r c) i j x) (own m n)
      (r.start + i) (c.start + j) = some x := by
  obtain ⟨hr1, hr2⟩ := hr
  obtain ⟨hc1, hc2⟩ := hc
  have hi2 : i < r.resolve m - r.start := hi
  have hj2 : j < c.resolve n - c.start := hj
  have hpi : r.start + i < m := by omega
  have hpj : c.start + j < n := by omega
  have hofflt : (own m n).offset (r.start + i) (c.start + j) < buf.length := by
    have hrm : (r.start + i) * n + (c.start + j) < m * n := rowmajor_lt hpi hpj
    simp only [ArrayGeom.offset, own, hlen]
    omega
  unfold index index_mut_set
  rw [slice_mut_eq_slice, slice_offset]
  exact List.getElem?_set_eq_of_lt x hofflt

theorem C4_slice_mut_write_visible_witness :
    index (index_mut_set ([0, 0, 0, 0, 0, 0] : List Nat)
        (slice_mut (own 2 3) { start := 1, stop := some 2 } { start := 0, stop := some 2 }) 0 1 9)
      (own 2 3) (1 + 0) (0 + 1) = some 9 :=
  C4_slice_mut_write_visible [0, 0, 0, 0, 0, 0] 2 3 (by decide)
    { start := 1, stop := some 2 } { start := 0, stop := some 2 }
    (by decide) (by decide) 9 0 1 (by decide) (by decide)

/-- Claim C7 is FALSE as stated: on the shape-incompatible pair
`(1×2) * (3×1)` the source's `assert!(l == k)` aborts the program — no
recoverable `ShapeMismatch` error value is returned to the caller (the
source defines no such error type). -/
theorem C7_counterexample :
    mul { geom := own 1 2, buf := [1, 2] } { geom := own 3 1, buf := [1, 1, 1] }
      (fun _ => 0) = .panicked := rfl

/-- Claim C7 (amended): `multiply(a, b)` requires `a.cols == b.rows`, failing
via an assertion (a panic/abort, not a recoverable `ShapeMismatch` error
value returned to the caller) otherwise; on success it returns a newly
allocated owned array of shape `(a.rows, b.cols)` (fresh geometry with
stride `b.cols` and base 0, and a fresh buffer of length
`a.rows * b.cols`). -/
theorem C7_mul_shape (a b : Matrix ℚ) (junk : Nat → ℚ) :
    (b.geom.rows = a.geom.cols →
      ∃ res, mul a b junk = .ok res
        ∧ res.geom = own a.geom.rows b.geom.cols
        ∧ res.buf.length = a.geom.rows * b.geom.cols)
    ∧ (b.geom.rows ≠ a.geom.cols → mul a b junk = .panicked) := by
  constructor
  · intro h
    simp only [mul]
    rw [if_pos h]
    refine ⟨_, rfl, rfl, ?_⟩
    rw [sgemm_length]
    simp [uninit_memory]
  · intro h
    simp only [mul]
    rw [if_neg h]

theorem C7_mul_shape_witness :
    (∃ res, mul { geom := own 1 2, buf := [1, 2] } { geom := own 2 1, buf := [5, 6] }
        (fun _ => 0) = .ok res
      ∧ res.geom = own 1 1
      ∧ res.buf.length = 1 * 1)
    ∧ mul { geom := own 1 2, buf := [1, 2] } { geom := own 3 1, buf := [1, 1, 1] }
        (fun _ => 0) = .panicked :=
  ⟨(C7_mul_shape { geom := own 1 2, buf := [1, 2] } { geom := own 2 1, buf := [5, 6] }
      (fun _ => 0)).1 (by decide),
   (C7_mul_shape { geom := own 1 2, buf := [1, 2] } { geom := own 3 1, buf := [1, 1, 1] }
      (fun _ => 0)).2 (by decide)⟩

/-- Claim C8 is FALSE as stated: indexing the empty view
`slice(0..0, 0..2)` of a 2×2 array at `[0, 0]` does not fail with
`OutOfBounds` — the source has no bounds check, and the unchecked read
returns the parent's first element. -/
theorem C8_counterexample :
    (slice (own 2 2) { start := 0, stop := some 0 } { start := 0, stop := some 2 }).rows = 0
    ∧ index ([10, 20, 30, 40] : List Nat)
        (slice (own 2 2) { start := 0, stop := some 0 } { start := 0, stop := some 2 }) 0 0
        = some 10 :=
  ⟨rfl, rfl⟩

/-- Claim C8 (amended): `slice(0..0, 0..n)` does succeed and yields a valid
empty view with `rows == 0`; but indexing that empty view with any `(i, j)`
performs no bounds check and never fails with `OutOfBounds` — it is the same
unchecked read of the backing storage the parent itself would perform at
`(i, j)`. -/
theorem C8_empty_slice (buf : List U) (m n : Nat) :
    (slice (own m n) { start := 0, stop := some 0 } { start := 0, stop := some n }).rows = 0
    ∧ ∀ i j,
        index buf (slice (own m n) { start := 0, stop := some 0 } { start := 0, stop := some n }) i j
          = index buf (own m n) i j :=
  ⟨rfl, fun i j => rfl⟩

/-- Claim C9: every owned constructor (`uninitialized_memory`, `zero`, `id`,
`from_fn`, the `matrix!` literal) builds `stride = cols`; and the `sgemm`
call in `Mul` passes the shape fields `k` and `n` as leading dimensions, so
under that invariant the leading dimensions it passes coincide with the
operands' and result's stored strides (see `mul_eq_sgemm_call` for the tie
between `mul` and the recorded argument tuple). -/
theorem C9_stride_eq_cols (R : RingOps U) (m n sz : Nat) (f : Nat → Nat → U)
    (junk : Nat → U) (rows : List (List U)) (a b : Matrix ℚ)
    (ha : a.geom.stride = a.geom.cols) (hb : b.geom.stride = b.geom.cols) :
    (uninit_memory m n junk).geom.stride = (uninit_memory m n junk).geom.cols
    ∧ (zero R m n).geom.stride = (zero R m n).geom.cols
    ∧ (ArrayLib.id R sz junk).geom.stride = (ArrayLib.id R sz junk).geom.cols
    ∧ (from_fn m n f junk).geom.stride = (from_fn m n f junk).geom.cols
    ∧ (matrix_literal rows).geom.stride = (matrix_literal rows).geom.cols
    ∧ (mul_gemm_args a b).rsa = a.geom.cols
    ∧ (mul_gemm_args a b).rsb = b.geom.cols
    ∧ (mul_gemm_args a b).rsc = b.geom.cols
    ∧ (mul_gemm_args a b).rsa = a.geom.stride
    ∧ (mul_gemm_args a b).rsb = b.geom.stride :=
  ⟨rfl, rfl, rfl, rfl, rfl, rfl, rfl, rfl, ha.symm, hb.symm⟩

theorem C9_stride_eq_cols_witness :
    (uninit_memory 2 3 (fun _ => (0 : ℚ))).geom.stride
        = (uninit_memory 2 3 (fun _ => (0 : ℚ))).geom.cols
    ∧ (zero ringF32 2 3).geom.stride = (zero ringF32 2 3).geom.cols
    ∧ (ArrayLib.id ringF32 4 (fun _ => 0)).geom.stride
        = (ArrayLib.id ringF32 4 (fun _ => 0)).geom.cols
    ∧ (from_fn 2 3 (fun i j => (i : ℚ) + j) (fun _ => 0)).geom.stride
        = (from_fn 2 3 (fun i j => (i : ℚ) + j) (fun _ => 0)).geom.cols
    ∧ (matrix_literal ([[1, 2], [3, 4]] : List (List ℚ))).geom.stride
        = (matrix_literal ([[1, 2], [3, 4]] : List (List ℚ))).geom.cols
    ∧ (mul_gemm_args { geom := own 1 2, buf := [1, 2] } { geom := own 2 1, buf := [5, 6] }).rsa
        = ({ geom := own 1 2, buf := [1, 2] } : Matrix ℚ).geom.cols
    ∧ (mul_gemm_args { geom := own 1 2, buf := [1, 2] } { geom := own 2 1, buf := [5, 6] }).rsb
        = ({ geom := own 2 1, buf := [5, 6] } : Matrix ℚ).geom.cols
    ∧ (mul_gemm_args { geom := own 1 2, buf := [1, 2] } { geom := own 2 1, buf := [5, 6] }).rsc
        = ({ geom := own 2 1, buf := [5, 6] } : Matrix ℚ).geom.cols
    ∧ (mul_gemm_args { geom := own 1 2, buf := [1, 2] } { geom := own 2 1, buf := [5, 6] }).rsa
        = ({ geom := own 1 2, buf := [1, 2] } : Matrix ℚ).geom.stride
    ∧ (mul_gemm_args { geom := own 1 2, buf := [1, 2] } { geom := own 2 1, buf := [5, 6] }).rsb
        = ({ geom := own 2 1, buf := [5, 6] } : Matrix ℚ).geom.stride :=
  C9_stride_eq_cols ringF32 2 3 4 (fun i j => (i : ℚ) + j) (fun _ => 0)
    [[1, 2], [3, 4]] { geom := own 1 2, buf := [1, 2] } { geom := own 2 1, buf := [5, 6] }
    rfl rfl

/-- Claim C10: a write through a mutable view at a valid `(i, j)` touches
exactly one storage cell — the one at the view's offset
`base + i*stride + j`, which is the parent cell `(r.start + i, c.start + j)`
the view maps `(i, j)` to — and leaves the length and every other cell of
the parent's storage unchanged. -/
theorem C10_write_frame (buf : List U) (m n : Nat) (hlen : buf.length = m * n)
    (r c : ArrayRange) (hr : rangeInBounds r m) (hc : rangeInBounds c n)
    (x : U) (i j : Nat)
    (hi : i < (slice_mut (own m n) r c).rows)
    (hj : j < (slice_mut (own m n) r c).cols) :
    (index_mut_set buf (slice_mut (own m n) r c) i j x).length = buf.length
    ∧ (index_mut_set buf (slice_mut (own m n) r c) i j
        x)[(own m n).offset (r.start + i) (c.start + j)]? = some x
    ∧ ∀ p, p ≠ (own m n).offset (r.start + i) (c.start + j) →
        (index_mut_set buf (slice_mut (own m n) r c) i j x)[p]? = buf[p]? := by
  obtain ⟨hr1, hr2⟩ := hr
  obtain ⟨hc1, hc2⟩ := hc
  have hi2 : i < r.resolve m - r.start := hi
  have hj2 : j < c.resolve n - c.start := hj
  have hpi : r.start + i < m := by omega
  have hpj : c.start + j < n := by omega
  have hofflt : (own m n).offset (r.start + i) (c.start + j) < buf.length := by
    have hrm : (r.start + i) * n + (c.start + j) < m * n := rowmajor_lt hpi hpj
    simp only [ArrayGeom.offset, own, hlen]
    omega
  refine ⟨?_, ?_, ?_⟩
  · simp [index_mut_set]
  · unfold index_mut_set
    rw [slice_mut_eq_slice, slice_offset]
    exact List.getElem?_set_eq_of_lt x hofflt
  · intro p hp
    unfold index_mut_set
    rw [slice_mut_eq_slice, slice_offset]
    exact List.getElem?_set_ne (Ne.symm hp)

theorem C10_write_frame_witness :
    (index_mut_set ([0, 0, 0, 0, 0, 0] : List Nat)
        (slice_mut (own 2 3) { start := 1, stop := some 2 } { start := 0, stop := some 2 })
        0 1 9).length = ([0, 0, 0, 0, 0, 0] : List Nat).length
    ∧ (index_mut_set ([0, 0, 0, 0, 0, 0] : List Nat)
        (slice_mut (own 2 3) { start := 1, stop := some 2 } { start := 0, stop := some 2 })
        0 1 9)[(own 2 3).offset (1 + 0) (0 + 1)]? = some 9
    ∧ (index_mut_set ([0, 0, 0, 0, 0, 0] : List Nat)
        (slice_mut (own 2 3) { start := 1, stop := some 2 } { start := 0, stop := some 2 })
        0 1 9)[0]? = ([0, 0, 0, 0, 0, 0] : List Nat)[0]? :=
  ⟨(C10_write_frame [0, 0, 0, 0, 0, 0] 2 3 (by decide)
      { start := 1, stop := some 2 } { start := 0, stop := some 2 }
      (by decide) (by decide) 9 0 1 (by decide) (by decide)).1,
   (C10_write_frame [0, 0, 0, 0, 0, 0] 2 3 (by decide)
      { start := 1, stop := some 2 } { start := 0, stop := some 2 }
      (by decide) (by decide) 9 0 1 (by decide) (by decide)).2.1,
   (C10_write_frame [0, 0, 0, 0, 0, 0] 2 3 (by decide)
      { start := 1, stop := some 2 } { start := 0, stop := some 2 }
      (by decide) (by decide) 9 0 1 (by decide) (by decide)).2.2 0 (by decide)⟩

end ArrayLib
